import Mathlib

/-!
Shallow embedding of the color-grading core of the mapboxgl-theme-editor
repository (src/utils/colorUtils.ts and the LUT generator module), over
exact rational arithmetic.  JavaScript numbers are modelled as rationals;
the transcendental library calls (Math.pow, Math.sqrt, Math.sin, Math.cos)
are abstracted into a record of rational-valued functions, and the one
claim that genuinely needs the real square root uses Real.sqrt directly.
-/

namespace ThemeEditor

/-- Models the JavaScript idiom Math.max(0, Math.min(1, x)). -/
def clamp01 (x : ℚ) : ℚ := max 0 (min 1 x)

/-- Truncation toward zero, as JavaScript coerces in Math.trunc and as the
remainder operator rounds its implicit quotient. -/
def ratTrunc (q : ℚ) : ℤ := if q < 0 then Int.ceil q else Int.floor q

/-- Models the JavaScript expression x % 1 on numbers: the remainder keeps
the sign of the dividend, so x % 1 = x - trunc x. -/
def jsFmod1 (x : ℚ) : ℚ := x - (ratTrunc x : ℚ)

/-- Embeds rgbToHsv from src/utils/colorUtils.ts lines 7-27.  The h = 0
initialisation together with the delta check is expressed as a single
conditional; the three max comparisons are tested in source order. -/
def rgbToHsv (r g b : ℚ) : ℚ × ℚ × ℚ :=
  let mx := max r (max g b)
  let mn := min r (min g b)
  let delta := mx - mn
  ((if delta = 0 then 0
    else if mx = r then ((g - b) / delta + (if g < b then 6 else 0)) / 6
    else if mx = g then ((b - r) / delta + 2) / 6
    else ((r - g) / delta + 4) / 6),
   (if mx = 0 then 0 else delta / mx),
   mx)

/-- Embeds hsvToRgb from src/utils/colorUtils.ts lines 30-46.  The switch
on i % 6 uses the JavaScript remainder (sign of the dividend, here the
truncated remainder on integers); case 5 and the default branch of the
source both return the same triple and are merged. -/
def hsvToRgb (h s v : ℚ) : ℚ × ℚ × ℚ :=
  let i : ℤ := Int.floor (h * 6)
  let f : ℚ := h * 6 - (i : ℚ)
  let p := v * (1 - s)
  let q := v * (1 - f * s)
  let t := v * (1 - (1 - f) * s)
  let k := Int.tmod i 6
  if k = 0 then (v, t, p)
  else if k = 1 then (q, v, p)
  else if k = 2 then (p, v, t)
  else if k = 3 then (p, q, v)
  else if k = 4 then (t, p, v)
  else (v, p, q)

/-- A control point of a tone curve, from the Point interface of
src/utils/colorUtils.ts. -/
structure Point where
  x : ℚ
  y : ℚ
deriving DecidableEq, Repr

/-- The bracketing-pair scan of interpolateCurve (src/utils/colorUtils.ts
lines 54-60): walk adjacent pairs in index order and return the linear
interpolation at the first pair whose x range contains the input. -/
def scanPairs (input : ℚ) : List Point → Option ℚ
  | p :: q :: rest =>
      if p.x ≤ input ∧ input ≤ q.x then
        some (p.y + (input - p.x) / (q.x - p.x) * (q.y - p.y))
      else scanPairs input (q :: rest)
  | _ => none

/-- The y value of the last control point, the fall-through result of
interpolateCurve line 63.  An empty curve would crash the source on an
undefined element access; the 0 default here is unreachable for the
nonempty curves every claim quantifies over. -/
def lastY : List Point → ℚ
  | [] => 0
  | [p] => p.y
  | _ :: q :: rest => lastY (q :: rest)

/-- The body of interpolateCurve after input clamping: the pair scan with
the last-point fall-through. -/
def evalAux (x : ℚ) (curve : List Point) : ℚ :=
  match scanPairs x curve with
  | some y => y
  | none => lastY curve

/-- Embeds interpolateCurve from src/utils/colorUtils.ts lines 49-64. -/
def interpolateCurve (input : ℚ) (curve : List Point) : ℚ :=
  evalAux (clamp01 input) curve

/-- Rational-valued stand-ins for the transcendental JavaScript library
functions used by the LUT module: pow2 x models Math.pow(2, x), sqrt
models Math.sqrt, sinpi x models Math.sin(x * Math.PI), and coshalf x
models Math.cos(x * Math.PI * 0.5).  Theorems that depend on a value of
one of these state the defining fact (such as pow2 0 = 1) as an explicit
hypothesis. -/
structure RealOps where
  pow2 : ℚ → ℚ
  sqrt : ℚ → ℚ
  sinpi : ℚ → ℚ
  coshalf : ℚ → ℚ

/-- A working color triple of the pipeline, channels in source order. -/
structure Color where
  r : ℚ
  g : ℚ
  b : ℚ
deriving DecidableEq, Repr

/-- Channel-wise clamp, as in the three clamp blocks of generateLUT. -/
def clampColor (c : Color) : Color :=
  ⟨clamp01 c.r, clamp01 c.g, clamp01 c.b⟩

/-- The adjustments record of the ColorCorrection interface
(src LUT module lines 9-14). -/
structure Adjustments where
  hueShift : ℚ
  saturationShift : ℚ
  valueShift : ℚ
  brightnessShift : ℚ
deriving DecidableEq, Repr

/-- The ColorCorrection interface of the LUT module lines 4-15. -/
structure ColorCorrection where
  id : String
  enabled : Bool
  targetColor : Color
  tolerance : ℚ
  adjustments : Adjustments
deriving DecidableEq, Repr

/-- The LUTParameters interface of the LUT module lines 17-36. -/
structure LUTParameters where
  exposure : ℚ
  brightness : ℚ
  contrast : ℚ
  hue : ℚ
  saturation : ℚ
  value : ℚ
  vibrancy : ℚ
  crossProcess : ℚ
  redCurve : List Point
  greenCurve : List Point
  blueCurve : List Point
  lift : ℚ × ℚ
  liftStrength : ℚ
  gamma : ℚ × ℚ
  gammaStrength : ℚ
  gain : ℚ × ℚ
  gainStrength : ℚ
  colorCorrections : List ColorCorrection

/-- The squared numerator of the perceptual HSV distance of
matchesColorRange (LUT module lines 44-61): twice the squared circular
hue difference plus the squared saturation and value differences. -/
def distSq (r g b tr tg tb : ℚ) : ℚ :=
  let hsv := rgbToHsv r g b
  let thsv := rgbToHsv tr tg tb
  let hueDiff0 := |hsv.1 - thsv.1|
  let hueDiff := if hueDiff0 > 1/2 then 1 - hueDiff0 else hueDiff0
  let satDiff := |hsv.2.1 - thsv.2.1|
  let valDiff := |hsv.2.2 - thsv.2.2|
  hueDiff * hueDiff * 2 + satDiff * satDiff + valDiff * valDiff

/-- Embeds matchesColorRange from the LUT module lines 39-68: the HSV
distance is the square root of distSq divided by the square root of 4;
outside tolerance the strength is 0, inside it is the smooth cosine
falloff. -/
def matchesColorRange (ops : RealOps) (r g b tr tg tb tolerance : ℚ) : ℚ :=
  let distance := ops.sqrt (distSq r g b tr tg tb) / ops.sqrt 4
  if distance > tolerance then 0
  else ops.coshalf (distance / tolerance)

/-- The real-valued HSV distance of matchesColorRange, with Math.sqrt
modelled by Real.sqrt; used to settle the normalisation claim exactly. -/
noncomputable def distanceR (r g b tr tg tb : ℚ) : ℝ :=
  Real.sqrt ((distSq r g b tr tg tb : ℚ) : ℝ) / Real.sqrt 4

/-- The body of the correction loop of applyColorCorrections (LUT module
lines 79-119) for a single correction: skip when disabled, otherwise
compute the match strength and, when it is positive, shift hue,
saturation and value in HSV space and then apply the brightness
multiplier with channel clamps. -/
def applyOneCorrection (ops : RealOps) (c : Color) (corr : ColorCorrection) : Color :=
  if corr.enabled = false then c
  else
    let strength := matchesColorRange ops c.r c.g c.b
      corr.targetColor.r corr.targetColor.g corr.targetColor.b corr.tolerance
    if strength > 0 then
      let hsv := rgbToHsv c.r c.g c.b
      let h :=
        if corr.adjustments.hueShift ≠ 0 then
          let h1 := jsFmod1 (hsv.1 + corr.adjustments.hueShift / 360)
          if h1 < 0 then h1 + 1 else h1
        else hsv.1
      let s :=
        if corr.adjustments.saturationShift ≠ 0 then
          clamp01 (hsv.2.1 + corr.adjustments.saturationShift * strength)
        else hsv.2.1
      let v :=
        if corr.adjustments.valueShift ≠ 0 then
          clamp01 (hsv.2.2 + corr.adjustments.valueShift * strength)
        else hsv.2.2
      let rgb := hsvToRgb h s v
      if corr.adjustments.brightnessShift ≠ 0 then
        let m := 1 + corr.adjustments.brightnessShift * strength
        ⟨clamp01 (rgb.1 * m), clamp01 (rgb.2.1 * m), clamp01 (rgb.2.2 * m)⟩
      else ⟨rgb.1, rgb.2.1, rgb.2.2⟩
    else c

/-- Embeds applyColorCorrections from the LUT module lines 71-122: the
for-of loop over the correction list threads the working color through
applyOneCorrection in list order. -/
def applyColorCorrections (ops : RealOps) (c : Color) (corrs : List ColorCorrection) : Color :=
  corrs.foldl (applyOneCorrection ops) c

/-- Stage 1 of generateLUT (lines 154-158): exposure as a power-of-two
multiplier on every channel. -/
def stageExposure (ops : RealOps) (p : LUTParameters) (c : Color) : Color :=
  let ef := ops.pow2 p.exposure
  ⟨c.r * ef, c.g * ef, c.b * ef⟩

/-- Stage 2 of generateLUT (lines 160-163): multiplicative brightness. -/
def stageBrightness (p : LUTParameters) (c : Color) : Color :=
  ⟨c.r * p.brightness, c.g * p.brightness, c.b * p.brightness⟩

/-- Stage 3 of generateLUT (lines 165-168): contrast about the 0.5
midpoint. -/
def stageContrast (p : LUTParameters) (c : Color) : Color :=
  ⟨(c.r - 0.5) * p.contrast + 0.5,
   (c.g - 0.5) * p.contrast + 0.5,
   (c.b - 0.5) * p.contrast + 0.5⟩

/-- Stage 5 of generateLUT (lines 175-202): the HSV block with hue wrap,
saturation scale, vibrancy boost, value scale, the saturation and value
clamps, and the conversion back to RGB. -/
def stageHSV (p : LUTParameters) (c : Color) : Color :=
  let hsv := rgbToHsv c.r c.g c.b
  let h1 := jsFmod1 (hsv.1 + p.hue / 360)
  let h2 := if h1 < 0 then h1 + 1 else h1
  let s1 := hsv.2.1 * p.saturation
  let s2 := if p.vibrancy ≠ 0 then s1 + (1 - s1) * p.vibrancy else s1
  let v1 := hsv.2.2 * p.value
  let s3 := clamp01 s2
  let v2 := clamp01 v1
  let rgb := hsvToRgb h2 s3 v2
  ⟨rgb.1, rgb.2.1, rgb.2.2⟩

/-- Stage 6 of generateLUT (lines 204-211): the cross-process bias, a
luminance-dependent per-channel shift applied only when the parameter is
nonzero. -/
def stageCrossProcess (p : LUTParameters) (c : Color) : Color :=
  if p.crossProcess ≠ 0 then
    let lum := 0.299 * c.r + 0.587 * c.g + 0.114 * c.b
    ⟨c.r + p.crossProcess * (lum - 0.5) * 0.3,
     c.g + p.crossProcess * (0.3 - lum * 0.2),
     c.b + p.crossProcess * (0.5 - lum) * 0.3⟩
  else c

/-- Stage 7 of generateLUT (lines 213-246): the lift, gamma and gain
biases derived from the three offset wheels, weighted by the shadow,
midtone and highlight weights of the luminance computed once at line
228. -/
def stageSplitTone (ops : RealOps) (p : LUTParameters) (c : Color) : Color :=
  let liftR := p.lift.1 * 0.3 * p.liftStrength
  let liftG := p.lift.2 * 0.3 * p.liftStrength
  let liftB := -(p.lift.1 + p.lift.2) * 0.15 * p.liftStrength
  let gammaR := p.gamma.1 * 0.3 * p.gammaStrength
  let gammaG := p.gamma.2 * 0.3 * p.gammaStrength
  let gammaB := -(p.gamma.1 + p.gamma.2) * 0.15 * p.gammaStrength
  let gainR := p.gain.1 * 0.3 * p.gainStrength
  let gainG := p.gain.2 * 0.3 * p.gainStrength
  let gainB := -(p.gain.1 + p.gain.2) * 0.15 * p.gainStrength
  let lum := 0.299 * c.r + 0.587 * c.g + 0.114 * c.b
  let liftWeight := (1 - lum) ^ 2
  let gammaWeight := ops.sinpi lum
  let gainWeight := lum ^ 2
  ⟨c.r + liftR * liftWeight + gammaR * gammaWeight + gainR * gainWeight,
   c.g + liftG * liftWeight + gammaG * gammaWeight + gainG * gainWeight,
   c.b + liftB * liftWeight + gammaB * gammaWeight + gainB * gainWeight⟩

/-- Stage 9 of generateLUT (lines 253-256): the per-channel tone
curves. -/
def stageCurves (p : LUTParameters) (c : Color) : Color :=
  ⟨interpolateCurve c.r p.redCurve,
   interpolateCurve c.g p.greenCurve,
   interpolateCurve c.b p.blueCurve⟩

/-- Stage 10 of generateLUT (lines 258-261): color corrections, guarded
by the nonempty-list check of the source. -/
def stageCorrections (ops : RealOps) (p : LUTParameters) (c : Color) : Color :=
  if p.colorCorrections.length > 0 then
    applyColorCorrections ops c p.colorCorrections
  else c

/-- The pipeline prefix through the stage 4 clamp of generateLUT
(lines 154-173). -/
def gradeStage4 (ops : RealOps) (p : LUTParameters) (c : Color) : Color :=
  clampColor (stageContrast p (stageBrightness p (stageExposure ops p c)))

/-- The pipeline prefix through the HSV stage (lines 154-202). -/
def gradeStage5 (ops : RealOps) (p : LUTParameters) (c : Color) : Color :=
  stageHSV p (gradeStage4 ops p c)

/-- The pipeline prefix through the cross-process stage (lines 154-211),
before any further clamp. -/
def gradeStage6 (ops : RealOps) (p : LUTParameters) (c : Color) : Color :=
  stageCrossProcess p (gradeStage5 ops p c)

/-- The pipeline prefix through the split-tone stage (lines 154-246),
before the stage 8 clamp. -/
def gradeStage7 (ops : RealOps) (p : LUTParameters) (c : Color) : Color :=
  stageSplitTone ops p (gradeStage6 ops p c)

/-- The pipeline prefix through the stage 8 clamp of lines 248-251. -/
def gradeStage8 (ops : RealOps) (p : LUTParameters) (c : Color) : Color :=
  clampColor (gradeStage7 ops p c)

/-- The full per-cell grading pipeline of generateLUT lines 149-266:
stages 1 through 8, the tone curves, the color corrections and the final
clamp. -/
def gradeColor (ops : RealOps) (p : LUTParameters) (c : Color) : Color :=
  clampColor (stageCorrections ops p (stageCurves p (gradeStage8 ops p c)))

/-- Round half to even on rationals: the conversion a Uint8ClampedArray
store performs after clamping, per the ECMAScript ToUint8Clamp
operation. -/
def roundHalfEven (q : ℚ) : ℤ :=
  let f := Int.floor q
  let rem := q - (f : ℚ)
  if rem < 1/2 then f
  else if rem > 1/2 then f + 1
  else if f % 2 = 0 then f else f + 1

/-- The byte stored by an assignment into the Uint8ClampedArray backing
an ImageData: clamp to the 0-255 range, then round ties to even. -/
def toByte (q : ℚ) : ℕ := (min 255 (max 0 (roundHalfEven q))).toNat

/-- The four bytes the generateLUT triple loop (lines 141-273) writes for
cube cell (r, g, b): the graded color of the normalised coordinate
(r/15, g/15, b/15) scaled by 255, plus the constant 255 alpha.  In the
256 x 16 buffer these bytes land at offset (g * 256 + b * 16 + r) * 4,
since the pixel coordinates are x = b * 16 + r and y = g. -/
def generateLUTCell (ops : RealOps) (p : LUTParameters) (r g b : ℕ) : ℕ × ℕ × ℕ × ℕ :=
  let c := gradeColor ops p ⟨(r : ℚ) / 15, (g : ℚ) / 15, (b : ℚ) / 15⟩
  (toByte (c.r * 255), toByte (c.g * 255), toByte (c.b * 255), 255)

/-- Models Math.round for the nonnegative arguments of the applicator:
floor of the argument plus one half. -/
def jsRound (q : ℚ) : ℤ := Int.floor (q + 1/2)

/-- The cube-cell index a pixel channel byte is quantised to in
applyLUTToImage lines 332-334: round((channel / 255) * 15). -/
def quantizeIndex (c : ℕ) : ℕ := (jsRound ((c : ℚ) / 255 * 15)).toNat

/-- The byte offset of the looked-up LUT pixel, lines 336-339:
x = bIndex * 16 + rIndex, y = gIndex, offset (y * 256 + x) * 4. -/
def lutLookupIndex (r g b : ℕ) : ℕ :=
  (quantizeIndex g * 256 + quantizeIndex b * 16 + quantizeIndex r) * 4

/-- Embeds the per-pixel loop of applyLUTToImage (LUT module lines
326-346) on the flat RGBA byte list: each four-byte pixel has its red,
green and blue bytes replaced by the LUT bytes at the quantised cell and
its alpha byte copied through.  A trailing group of fewer than four
bytes cannot arise from an ImageData buffer and is left as is. -/
def applyLUTToData (lut : List ℕ) : List ℕ → List ℕ
  | r :: g :: b :: a :: rest =>
      let li := lutLookupIndex r g b
      lut.getD li 0 :: lut.getD (li + 1) 0 :: lut.getD (li + 2) 0 :: a ::
        applyLUTToData lut rest
  | rest => rest

/-- The identity tone curve, the two-point diagonal of the spec. -/
def identityCurve : List Point := [⟨0, 0⟩, ⟨1, 1⟩]

/-- The identity grading parameters of the identity-LUT claim: neutral
scalars, centered offset wheels with the default strength 1, diagonal
curves and no corrections. -/
def identityParams : LUTParameters :=
  { exposure := 0, brightness := 1, contrast := 1, hue := 0,
    saturation := 1, value := 1, vibrancy := 0, crossProcess := 0,
    redCurve := identityCurve, greenCurve := identityCurve,
    blueCurve := identityCurve,
    lift := (0, 0), liftStrength := 1,
    gamma := (0, 0), gammaStrength := 1,
    gain := (0, 0), gainStrength := 1,
    colorCorrections := [] }

/-- A concrete RealOps instantiation for closed evaluations; it agrees
with the JavaScript library functions at every argument those
evaluations reach: pow2 0 = 1, sqrt 0 = 0 and coshalf 0 = 1. -/
def idOps : RealOps :=
  { pow2 := fun _ => 1, sqrt := fun _ => 0,
    sinpi := fun _ => 0, coshalf := fun _ => 1 }


/-! Helper lemmas: projections and ranges of the HSV conversion, the
sector evaluation of hsvToRgb, and the exact round trip. -/

lemma rgbToHsv_fst (r g b : ℚ) :
    (rgbToHsv r g b).1 =
      (if max r (max g b) - min r (min g b) = 0 then 0
       else if max r (max g b) = r then
         ((g - b) / (max r (max g b) - min r (min g b)) + (if g < b then 6 else 0)) / 6
       else if max r (max g b) = g then
         ((b - r) / (max r (max g b) - min r (min g b)) + 2) / 6
       else ((r - g) / (max r (max g b) - min r (min g b)) + 4) / 6) := rfl

lemma rgbToHsv_snd_fst (r g b : ℚ) :
    (rgbToHsv r g b).2.1 =
      (if max r (max g b) = 0 then 0
       else (max r (max g b) - min r (min g b)) / max r (max g b)) := rfl

lemma rgbToHsv_snd_snd (r g b : ℚ) : (rgbToHsv r g b).2.2 = max r (max g b) := rfl

lemma hsvToRgb_sector (h s v : ℚ) (k : ℤ) (hk0 : 0 ≤ k) (hk5 : k ≤ 5)
    (hlow : (k : ℚ) ≤ h * 6) (hhigh : h * 6 < (k : ℚ) + 1) :
    hsvToRgb h s v =
      (if k = 0 then (v, v * (1 - (1 - (h * 6 - (k : ℚ))) * s), v * (1 - s))
       else if k = 1 then (v * (1 - (h * 6 - (k : ℚ)) * s), v, v * (1 - s))
       else if k = 2 then (v * (1 - s), v, v * (1 - (1 - (h * 6 - (k : ℚ))) * s))
       else if k = 3 then (v * (1 - s), v * (1 - (h * 6 - (k : ℚ)) * s), v)
       else if k = 4 then (v * (1 - (1 - (h * 6 - (k : ℚ))) * s), v * (1 - s), v)
       else (v, v * (1 - s), v * (1 - (h * 6 - (k : ℚ)) * s))) := by
  have hfl : Int.floor (h * 6) = k := by
    rw [Int.floor_eq_iff]
    exact ⟨hlow, hhigh⟩
  interval_cases k <;> (unfold hsvToRgb; rw [hfl]; norm_num [Int.tmod])

theorem hsv_roundtrip (r g b : ℚ) (hr : 0 ≤ r) (hg : 0 ≤ g) (hb : 0 ≤ b) :
    hsvToRgb (rgbToHsv r g b).1 (rgbToHsv r g b).2.1 (rgbToHsv r g b).2.2 = (r, g, b) := by
  have hgm : g ≤ max r (max g b) := le_trans (le_max_left g b) (le_max_right r (max g b))
  have hbm : b ≤ max r (max g b) := le_trans (le_max_right g b) (le_max_right r (max g b))
  have hrm : r ≤ max r (max g b) := le_max_left r (max g b)
  have hmg : min r (min g b) ≤ g := le_trans (min_le_right r (min g b)) (min_le_left g b)
  have hmb : min r (min g b) ≤ b := le_trans (min_le_right r (min g b)) (min_le_right g b)
  have hmr : min r (min g b) ≤ r := min_le_left r (min g b)
  have hmn0 : 0 ≤ min r (min g b) := le_min hr (le_min hg hb)
  have hv : (rgbToHsv r g b).2.2 = max r (max g b) := rfl
  by_cases hd : max r (max g b) - min r (min g b) = 0
  · -- degenerate grey case: all three channels coincide
    have h1 : r = max r (max g b) := le_antisymm hrm (by linarith)
    have h2 : g = max r (max g b) := le_antisymm hgm (by linarith)
    have h3 : b = max r (max g b) := le_antisymm hbm (by linarith)
    have hgr : g = r := by linarith
    have hbr : b = r := by linarith
    rw [hgr, hbr]
    have hmax : max r (max r r) = r := by rw [max_self, max_self]
    have hmin : min r (min r r) = r := by rw [min_self, min_self]
    have hh : (rgbToHsv r r r).1 = 0 := by
      rw [rgbToHsv_fst, hmax, hmin]
      simp
    have hs : (rgbToHsv r r r).2.1 = 0 := by
      rw [rgbToHsv_snd_fst, hmax, hmin]
      split_ifs with h2
      · rfl
      · rw [sub_self, zero_div]
    rw [hh, hs, rgbToHsv_snd_snd, hmax,
      hsvToRgb_sector 0 0 r 0 (by norm_num) (by norm_num) (by norm_num) (by norm_num)]
    rw [if_pos rfl, Prod.mk.injEq, Prod.mk.injEq]
    norm_num
  · by_cases hxr : max r (max g b) = r
    · by_cases hgb : g < b
      · -- max = r, g < b : sector 5, min = g
        have hgr : g ≤ r := hxr ▸ hgm
        have hbr : b ≤ r := hxr ▸ hbm
        have hmin : min r (min g b) = g := by
          rw [min_eq_left hgb.le, min_eq_right hgr]
        rw [hmin, hxr] at hd
        have hd0 : (0:ℚ) < r - g := lt_of_le_of_ne (by linarith) (Ne.symm hd)
        have hr0 : (0:ℚ) < r := by linarith
        have hh : (rgbToHsv r g b).1 = ((g - b) / (r - g) + 6) / 6 := by
          rw [rgbToHsv_fst, hxr, hmin, if_neg hd, if_pos rfl, if_pos hgb]
        have hs : (rgbToHsv r g b).2.1 = (r - g) / r := by
          rw [rgbToHsv_snd_fst, hxr, hmin, if_neg (ne_of_gt hr0)]
        have hlo : (-1:ℚ) ≤ (g - b) / (r - g) := by
          rw [le_div_iff₀ hd0]; linarith
        have hhi : (g - b) / (r - g) < 0 := div_neg_of_neg_of_pos (by linarith) hd0
        have hmul : ((g - b) / (r - g) + 6) / 6 * 6 = (g - b) / (r - g) + 6 := by ring
        rw [hh, hs, hv, hxr,
          hsvToRgb_sector _ _ _ 5 (by norm_num) (by norm_num)
            (by rw [hmul]; push_cast; linarith)
            (by rw [hmul]; push_cast; linarith)]
        rw [if_neg (by decide), if_neg (by decide), if_neg (by decide), if_neg (by decide),
          if_neg (by decide), Prod.mk.injEq, Prod.mk.injEq]
        push_cast
        refine ⟨rfl, ?_, ?_⟩
        · field_simp
        · field_simp
          ring
      · by_cases hgr : g = r
        · -- max = r = g, b = min : sector 1
          subst hgr
          have hbg : b ≤ g := le_of_not_lt hgb
          have hmin : min g (min g b) = b := by
            rw [min_eq_right hbg, min_eq_right hbg]
          rw [hmin, hxr] at hd
          have hd0 : (0:ℚ) < g - b := lt_of_le_of_ne (by linarith) (Ne.symm hd)
          have hg0 : (0:ℚ) < g := by linarith
          have hh : (rgbToHsv g g b).1 = ((g - b) / (g - b) + 0) / 6 := by
            rw [rgbToHsv_fst, hxr, hmin, if_neg hd, if_pos rfl, if_neg hgb]
          have hs : (rgbToHsv g g b).2.1 = (g - b) / g := by
            rw [rgbToHsv_snd_fst, hxr, hmin, if_neg (ne_of_gt hg0)]
          have heq : (g - b) / (g - b) = 1 := div_self (ne_of_gt hd0)
          rw [hh, hs, hv, hxr, heq,
            hsvToRgb_sector _ _ _ 1 (by norm_num) (by norm_num)
              (by push_cast; norm_num)
              (by push_cast; norm_num)]
          rw [if_neg (by decide), if_pos rfl, Prod.mk.injEq, Prod.mk.injEq]
          push_cast
          norm_num
          field_simp
        · -- max = r, b ≤ g < r : sector 0
          have hbg : b ≤ g := le_of_not_lt hgb
          have hglt : g < r := lt_of_le_of_ne (hxr ▸ hgm) hgr
          have hbr : b ≤ r := hbg.trans hglt.le
          have hmin : min r (min g b) = b := by
            rw [min_eq_right hbg, min_eq_right hbr]
          rw [hmin, hxr] at hd
          have hd0 : (0:ℚ) < r - b := lt_of_le_of_ne (by linarith) (Ne.symm hd)
          have hr0 : (0:ℚ) < r := by linarith
          have hh : (rgbToHsv r g b).1 = ((g - b) / (r - b) + 0) / 6 := by
            rw [rgbToHsv_fst, hxr, hmin, if_neg hd, if_pos rfl, if_neg hgb]
          have hs : (rgbToHsv r g b).2.1 = (r - b) / r := by
            rw [rgbToHsv_snd_fst, hxr, hmin, if_neg (ne_of_gt hr0)]
          have hlo : (0:ℚ) ≤ (g - b) / (r - b) := div_nonneg (by linarith) hd0.le
          have hhi : (g - b) / (r - b) < 1 := by
            rw [div_lt_one hd0]; linarith
          have hmul : ((g - b) / (r - b) + 0) / 6 * 6 = (g - b) / (r - b) := by ring
          rw [hh, hs, hv, hxr,
            hsvToRgb_sector _ _ _ 0 (by norm_num) (by norm_num)
              (by rw [hmul]; push_cast; linarith)
              (by rw [hmul]; push_cast; linarith)]
          rw [if_pos rfl, Prod.mk.injEq, Prod.mk.injEq]
          push_cast
          refine ⟨rfl, ?_, ?_⟩
          · field_simp
            ring
          · field_simp
    · by_cases hxg : max r (max g b) = g
      · -- max = g
        have hger : ¬(g = r) := fun he => hxr (by rw [hxg, he])
        have hrg : r < g := lt_of_le_of_ne (hxg ▸ hrm) fun he => hger he.symm
        have hbg : b ≤ g := hxg ▸ hbm
        by_cases hbr : b < r
        · -- min = b : sector 1
          have hmin : min r (min g b) = b := by
            rw [min_eq_right hbg, min_eq_right hbr.le]
          rw [hmin, hxg] at hd
          have hd0 : (0:ℚ) < g - b := lt_of_le_of_ne (by linarith) (Ne.symm hd)
          have hg0 : (0:ℚ) < g := by linarith
          have hh : (rgbToHsv r g b).1 = ((b - r) / (g - b) + 2) / 6 := by
            rw [rgbToHsv_fst, hxg, hmin, if_neg hd, if_neg hger, if_pos rfl]
          have hs : (rgbToHsv r g b).2.1 = (g - b) / g := by
            rw [rgbToHsv_snd_fst, hxg, hmin, if_neg (ne_of_gt hg0)]
          have hlo : (-1:ℚ) < (b - r) / (g - b) := by
            rw [lt_div_iff₀ hd0]; linarith
          have hhi : (b - r) / (g - b) < 0 := div_neg_of_neg_of_pos (by linarith) hd0
          have hmul : ((b - r) / (g - b) + 2) / 6 * 6 = (b - r) / (g - b) + 2 := by ring
          rw [hh, hs, hv, hxg,
            hsvToRgb_sector _ _ _ 1 (by norm_num) (by norm_num)
              (by rw [hmul]; push_cast; linarith)
              (by rw [hmul]; push_cast; linarith)]
          rw [if_neg (by decide), if_pos rfl, Prod.mk.injEq, Prod.mk.injEq]
          push_cast
          refine ⟨?_, rfl, ?_⟩
          · field_simp
            ring
          · field_simp
        · -- r ≤ b ≤ g
          have hrb : r ≤ b := le_of_not_lt hbr
          have hmin : min r (min g b) = r := min_eq_left (le_min hrg.le hrb)
          rw [hmin, hxg] at hd
          have hd0 : (0:ℚ) < g - r := lt_of_le_of_ne (by linarith) (Ne.symm hd)
          have hg0 : (0:ℚ) < g := by linarith
          have hh : (rgbToHsv r g b).1 = ((b - r) / (g - r) + 2) / 6 := by
            rw [rgbToHsv_fst, hxg, hmin, if_neg hd, if_neg hger, if_pos rfl]
          have hs : (rgbToHsv r g b).2.1 = (g - r) / g := by
            rw [rgbToHsv_snd_fst, hxg, hmin, if_neg (ne_of_gt hg0)]
          by_cases hbg2 : b = g
          · -- b = g : sector 3 with fract 0
            subst hbg2
            have heq : (b - r) / (b - r) = 1 := div_self (ne_of_gt hd0)
            rw [hh, hs, hv, hxg, heq,
              hsvToRgb_sector _ _ _ 3 (by norm_num) (by norm_num)
                (by push_cast; norm_num)
                (by push_cast; norm_num)]
            rw [if_neg (by decide), if_neg (by decide), if_neg (by decide), if_pos rfl,
              Prod.mk.injEq, Prod.mk.injEq]
            push_cast
            norm_num
            field_simp
          · -- b < g : sector 2
            have hblt : b < g := lt_of_le_of_ne hbg hbg2
            have hlo : (0:ℚ) ≤ (b - r) / (g - r) := div_nonneg (by linarith) hd0.le
            have hhi : (b - r) / (g - r) < 1 := by
              rw [div_lt_one hd0]; linarith
            have hmul : ((b - r) / (g - r) + 2) / 6 * 6 = (b - r) / (g - r) + 2 := by ring
            rw [hh, hs, hv, hxg,
              hsvToRgb_sector _ _ _ 2 (by norm_num) (by norm_num)
                (by rw [hmul]; push_cast; linarith)
                (by rw [hmul]; push_cast; linarith)]
            rw [if_neg (by decide), if_neg (by decide), if_pos rfl,
              Prod.mk.injEq, Prod.mk.injEq]
            push_cast
            refine ⟨?_, rfl, ?_⟩
            · field_simp
            · field_simp
              ring
      · -- max = b
        have hxb : max r (max g b) = b := by
          rcases max_choice r (max g b) with h | h
          · exact absurd h hxr
          · rcases max_choice g b with h2 | h2
            · exact absurd (h.trans h2) hxg
            · exact h.trans h2
        have hber : ¬(b = r) := fun he => hxr (by rw [hxb, he])
        have hbeg : ¬(b = g) := fun he => hxg (by rw [hxb, he])
        have hrb : r < b := lt_of_le_of_ne (hxb ▸ hrm) fun he => hber he.symm
        have hgb2 : g < b := lt_of_le_of_ne (hxb ▸ hgm) fun he => hbeg he.symm
        by_cases hgr2 : g ≤ r
        · -- min = g : sector 4
          have hmin : min r (min g b) = g := by
            rw [min_eq_left hgb2.le, min_eq_right hgr2]
          rw [hmin, hxb] at hd
          have hd0 : (0:ℚ) < b - g := lt_of_le_of_ne (by linarith) (Ne.symm hd)
          have hb0 : (0:ℚ) < b := by linarith
          have hh : (rgbToHsv r g b).1 = ((r - g) / (b - g) + 4) / 6 := by
            rw [rgbToHsv_fst, hxb, hmin, if_neg hd, if_neg hber, if_neg hbeg]
          have hs : (rgbToHsv r g b).2.1 = (b - g) / b := by
            rw [rgbToHsv_snd_fst, hxb, hmin, if_neg (ne_of_gt hb0)]
          have hlo : (0:ℚ) ≤ (r - g) / (b - g) := div_nonneg (by linarith) hd0.le
          have hhi : (r - g) / (b - g) < 1 := by
            rw [div_lt_one hd0]; linarith
          have hmul : ((r - g) / (b - g) + 4) / 6 * 6 = (r - g) / (b - g) + 4 := by ring
          rw [hh, hs, hv, hxb,
            hsvToRgb_sector _ _ _ 4 (by norm_num) (by norm_num)
              (by rw [hmul]; push_cast; linarith)
              (by rw [hmul]; push_cast; linarith)]
          rw [if_neg (by decide), if_neg (by decide), if_neg (by decide), if_neg (by decide),
            if_pos rfl, Prod.mk.injEq, Prod.mk.injEq]
          push_cast
          refine ⟨?_, ?_, rfl⟩
          · field_simp
            ring
          · field_simp
        · -- min = r : sector 3
          have hrg2 : r < g := lt_of_not_le hgr2
          have hmin : min r (min g b) = r := min_eq_left (le_min hrg2.le hrb.le)
          rw [hmin, hxb] at hd
          have hd0 : (0:ℚ) < b - r := lt_of_le_of_ne (by linarith) (Ne.symm hd)
          have hb0 : (0:ℚ) < b := by linarith
          have hh : (rgbToHsv r g b).1 = ((r - g) / (b - r) + 4) / 6 := by
            rw [rgbToHsv_fst, hxb, hmin, if_neg hd, if_neg hber, if_neg hbeg]
          have hs : (rgbToHsv r g b).2.1 = (b - r) / b := by
            rw [rgbToHsv_snd_fst, hxb, hmin, if_neg (ne_of_gt hb0)]
          have hlo : (-1:ℚ) < (r - g) / (b - r) := by
            rw [lt_div_iff₀ hd0]; linarith
          have hhi : (r - g) / (b - r) < 0 := div_neg_of_neg_of_pos (by linarith) hd0
          have hmul : ((r - g) / (b - r) + 4) / 6 * 6 = (r - g) / (b - r) + 4 := by ring
          rw [hh, hs, hv, hxb,
            hsvToRgb_sector _ _ _ 3 (by norm_num) (by norm_num)
              (by rw [hmul]; push_cast; linarith)
              (by rw [hmul]; push_cast; linarith)]
          rw [if_neg (by decide), if_neg (by decide), if_neg (by decide), if_pos rfl,
            Prod.mk.injEq, Prod.mk.injEq]
          push_cast
          refine ⟨?_, ?_, rfl⟩
          · field_simp
          · field_simp
            ring

/-- The six possible outputs of hsvToRgb, with the fractional sector
position written explicitly. -/
lemma hsvToRgb_shape (h s v : ℚ) :
    hsvToRgb h s v = (v, v * (1 - (1 - (h * 6 - (Int.floor (h * 6) : ℚ))) * s), v * (1 - s)) ∨
    hsvToRgb h s v = (v * (1 - (h * 6 - (Int.floor (h * 6) : ℚ)) * s), v, v * (1 - s)) ∨
    hsvToRgb h s v = (v * (1 - s), v, v * (1 - (1 - (h * 6 - (Int.floor (h * 6) : ℚ))) * s)) ∨
    hsvToRgb h s v = (v * (1 - s), v * (1 - (h * 6 - (Int.floor (h * 6) : ℚ)) * s), v) ∨
    hsvToRgb h s v = (v * (1 - (1 - (h * 6 - (Int.floor (h * 6) : ℚ))) * s), v * (1 - s), v) ∨
    hsvToRgb h s v = (v, v * (1 - s), v * (1 - (h * 6 - (Int.floor (h * 6) : ℚ)) * s)) := by
  simp only [hsvToRgb]
  split_ifs
  · exact Or.inl rfl
  · exact Or.inr (Or.inl rfl)
  · exact Or.inr (Or.inr (Or.inl rfl))
  · exact Or.inr (Or.inr (Or.inr (Or.inl rfl)))
  · exact Or.inr (Or.inr (Or.inr (Or.inr (Or.inl rfl))))
  · exact Or.inr (Or.inr (Or.inr (Or.inr (Or.inr rfl))))

/-- Every channel of hsvToRgb stays in the unit interval once s and v do,
whatever the hue: the three returned scalars are products of v with
factors in the unit interval. -/
lemma hsvToRgb_mem (h s v : ℚ) (hs0 : 0 ≤ s) (hs1 : s ≤ 1) (hv0 : 0 ≤ v) (hv1 : v ≤ 1) :
    (0 ≤ (hsvToRgb h s v).1 ∧ (hsvToRgb h s v).1 ≤ 1) ∧
    (0 ≤ (hsvToRgb h s v).2.1 ∧ (hsvToRgb h s v).2.1 ≤ 1) ∧
    (0 ≤ (hsvToRgb h s v).2.2 ∧ (hsvToRgb h s v).2.2 ≤ 1) := by
  have hf0 : (0:ℚ) ≤ h * 6 - (Int.floor (h * 6) : ℚ) := sub_nonneg.mpr (Int.floor_le _)
  have hf1 : h * 6 - (Int.floor (h * 6) : ℚ) < 1 := by
    have := Int.lt_floor_add_one (h * 6)
    linarith
  have hp : 0 ≤ v * (1 - s) ∧ v * (1 - s) ≤ 1 :=
    ⟨mul_nonneg hv0 (by linarith), by nlinarith⟩
  have hq : 0 ≤ v * (1 - (h * 6 - (Int.floor (h * 6) : ℚ)) * s) ∧
      v * (1 - (h * 6 - (Int.floor (h * 6) : ℚ)) * s) ≤ 1 := by
    have ha : 0 ≤ (h * 6 - (Int.floor (h * 6) : ℚ)) * s := mul_nonneg hf0 hs0
    have hb2 : (h * 6 - (Int.floor (h * 6) : ℚ)) * s ≤ 1 := by nlinarith
    exact ⟨mul_nonneg hv0 (by linarith), by nlinarith⟩
  have ht : 0 ≤ v * (1 - (1 - (h * 6 - (Int.floor (h * 6) : ℚ))) * s) ∧
      v * (1 - (1 - (h * 6 - (Int.floor (h * 6) : ℚ))) * s) ≤ 1 := by
    have ha : 0 ≤ (1 - (h * 6 - (Int.floor (h * 6) : ℚ))) * s :=
      mul_nonneg (by linarith) hs0
    have hb2 : (1 - (h * 6 - (Int.floor (h * 6) : ℚ))) * s ≤ 1 := by nlinarith
    exact ⟨mul_nonneg hv0 (by linarith), by nlinarith⟩
  rcases hsvToRgb_shape h s v with he | he | he | he | he | he
  · rw [he]; exact ⟨⟨hv0, hv1⟩, ht, hp⟩
  · rw [he]; exact ⟨hq, ⟨hv0, hv1⟩, hp⟩
  · rw [he]; exact ⟨hp, ⟨hv0, hv1⟩, ht⟩
  · rw [he]; exact ⟨hp, hq, ⟨hv0, hv1⟩⟩
  · rw [he]; exact ⟨ht, hp, ⟨hv0, hv1⟩⟩
  · rw [he]; exact ⟨⟨hv0, hv1⟩, hp, hq⟩

lemma rgbToHsv_h_nonneg (r g b : ℚ) : 0 ≤ (rgbToHsv r g b).1 := by
  have hgm : g ≤ max r (max g b) := le_trans (le_max_left g b) (le_max_right r (max g b))
  have hbm : b ≤ max r (max g b) := le_trans (le_max_right g b) (le_max_right r (max g b))
  have hrm : r ≤ max r (max g b) := le_max_left r (max g b)
  have hmg : min r (min g b) ≤ g := le_trans (min_le_right r (min g b)) (min_le_left g b)
  have hmb : min r (min g b) ≤ b := le_trans (min_le_right r (min g b)) (min_le_right g b)
  have hmr : min r (min g b) ≤ r := min_le_left r (min g b)
  rw [rgbToHsv_fst]
  split_ifs with h1 h2 h3 h4
  · norm_num
  · have hd0 : (0:ℚ) < max r (max g b) - min r (min g b) :=
      lt_of_le_of_ne (by linarith) (Ne.symm h1)
    have h5 : (-1:ℚ) ≤ (g - b) / (max r (max g b) - min r (min g b)) := by
      rw [le_div_iff₀ hd0]; linarith
    linarith
  · have hd0 : (0:ℚ) < max r (max g b) - min r (min g b) :=
      lt_of_le_of_ne (by linarith) (Ne.symm h1)
    have h5 : (0:ℚ) ≤ (g - b) / (max r (max g b) - min r (min g b)) :=
      div_nonneg (by linarith) hd0.le
    linarith
  · have hd0 : (0:ℚ) < max r (max g b) - min r (min g b) :=
      lt_of_le_of_ne (by linarith) (Ne.symm h1)
    have h5 : (-1:ℚ) ≤ (b - r) / (max r (max g b) - min r (min g b)) := by
      rw [le_div_iff₀ hd0]; linarith
    linarith
  · have hd0 : (0:ℚ) < max r (max g b) - min r (min g b) :=
      lt_of_le_of_ne (by linarith) (Ne.symm h1)
    have h5 : (-1:ℚ) ≤ (r - g) / (max r (max g b) - min r (min g b)) := by
      rw [le_div_iff₀ hd0]; linarith
    linarith

lemma rgbToHsv_h_lt_one (r g b : ℚ) : (rgbToHsv r g b).1 < 1 := by
  have hgm : g ≤ max r (max g b) := le_trans (le_max_left g b) (le_max_right r (max g b))
  have hbm : b ≤ max r (max g b) := le_trans (le_max_right g b) (le_max_right r (max g b))
  have hrm : r ≤ max r (max g b) := le_max_left r (max g b)
  have hmg : min r (min g b) ≤ g := le_trans (min_le_right r (min g b)) (min_le_left g b)
  have hmb : min r (min g b) ≤ b := le_trans (min_le_right r (min g b)) (min_le_right g b)
  have hmr : min r (min g b) ≤ r := min_le_left r (min g b)
  rw [rgbToHsv_fst]
  split_ifs with h1 h2 h3 h4
  · norm_num
  · have hd0 : (0:ℚ) < max r (max g b) - min r (min g b) :=
      lt_of_le_of_ne (by linarith) (Ne.symm h1)
    have h5 : (g - b) / (max r (max g b) - min r (min g b)) < 0 :=
      div_neg_of_neg_of_pos (by linarith) hd0
    linarith
  · have hd0 : (0:ℚ) < max r (max g b) - min r (min g b) :=
      lt_of_le_of_ne (by linarith) (Ne.symm h1)
    have h5 : (g - b) / (max r (max g b) - min r (min g b)) ≤ 1 := by
      rw [div_le_one hd0]; linarith
    linarith
  · have hd0 : (0:ℚ) < max r (max g b) - min r (min g b) :=
      lt_of_le_of_ne (by linarith) (Ne.symm h1)
    have h5 : (b - r) / (max r (max g b) - min r (min g b)) ≤ 1 := by
      rw [div_le_one hd0]; linarith
    linarith
  · have hd0 : (0:ℚ) < max r (max g b) - min r (min g b) :=
      lt_of_le_of_ne (by linarith) (Ne.symm h1)
    have h5 : (r - g) / (max r (max g b) - min r (min g b)) ≤ 1 := by
      rw [div_le_one hd0]; linarith
    linarith

lemma rgbToHsv_s_mem (r g b : ℚ) (hr : 0 ≤ r) (hg : 0 ≤ g) (hb : 0 ≤ b) :
    0 ≤ (rgbToHsv r g b).2.1 ∧ (rgbToHsv r g b).2.1 ≤ 1 := by
  have hrm : r ≤ max r (max g b) := le_max_left r (max g b)
  have hmg : min r (min g b) ≤ g := le_trans (min_le_right r (min g b)) (min_le_left g b)
  have hmb : min r (min g b) ≤ b := le_trans (min_le_right r (min g b)) (min_le_right g b)
  have hmr : min r (min g b) ≤ r := min_le_left r (min g b)
  have hmn0 : 0 ≤ min r (min g b) := le_min hr (le_min hg hb)
  rw [rgbToHsv_snd_fst]
  split_ifs with h1
  · norm_num
  · have hd0 : (0:ℚ) < max r (max g b) :=
      lt_of_le_of_ne (by linarith) (Ne.symm h1)
    constructor
    · exact div_nonneg (by linarith) hd0.le
    · rw [div_le_one hd0]; linarith

lemma rgbToHsv_v_mem (r g b : ℚ) (hr : 0 ≤ r) (hr1 : r ≤ 1) (hg : 0 ≤ g) (hg1 : g ≤ 1)
    (hb : 0 ≤ b) (hb1 : b ≤ 1) :
    0 ≤ (rgbToHsv r g b).2.2 ∧ (rgbToHsv r g b).2.2 ≤ 1 := by
  rw [rgbToHsv_snd_snd]
  constructor
  · exact le_trans hr (le_max_left r (max g b))
  · exact max_le hr1 (max_le hg1 hb1)


/-! Clamping, wrapping and curve helper lemmas. -/

lemma clamp01_mem (x : ℚ) : 0 ≤ clamp01 x ∧ clamp01 x ≤ 1 :=
  ⟨le_max_left 0 (min 1 x), max_le (by norm_num) (min_le_left 1 x)⟩

lemma clamp01_eq_self (x : ℚ) (h0 : 0 ≤ x) (h1 : x ≤ 1) : clamp01 x = x := by
  unfold clamp01
  rw [min_eq_right h1, max_eq_right h0]

lemma clamp01_mono {a b : ℚ} (hab : a ≤ b) : clamp01 a ≤ clamp01 b :=
  max_le_max le_rfl (min_le_min le_rfl hab)

lemma clampColor_eq_self (c : Color) (h1 : 0 ≤ c.r) (h2 : c.r ≤ 1) (h3 : 0 ≤ c.g)
    (h4 : c.g ≤ 1) (h5 : 0 ≤ c.b) (h6 : c.b ≤ 1) : clampColor c = c := by
  unfold clampColor
  rw [clamp01_eq_self c.r h1 h2, clamp01_eq_self c.g h3 h4, clamp01_eq_self c.b h5 h6]

lemma jsFmod1_eq_self (x : ℚ) (h0 : 0 ≤ x) (h1 : x < 1) : jsFmod1 x = x := by
  unfold jsFmod1 ratTrunc
  rw [if_neg (not_lt.mpr h0), Int.floor_eq_zero_iff.mpr ⟨h0, h1⟩]
  norm_num

lemma interpolateCurve_identityCurve (x : ℚ) (h0 : 0 ≤ x) (h1 : x ≤ 1) :
    interpolateCurve x identityCurve = x := by
  unfold interpolateCurve identityCurve evalAux
  rw [clamp01_eq_self x h0 h1]
  simp only [scanPairs]
  rw [if_pos ⟨h0, h1⟩]
  norm_num

/-! The grading pipeline at the identity parameters. -/

lemma stageHSV_identity (c : Color) (h1 : 0 ≤ c.r) (h2 : c.r ≤ 1) (h3 : 0 ≤ c.g)
    (h4 : c.g ≤ 1) (h5 : 0 ≤ c.b) (h6 : c.b ≤ 1) :
    stageHSV identityParams c = c := by
  obtain ⟨r, g, b⟩ := c
  have hh0 := rgbToHsv_h_nonneg r g b
  have hh1 := rgbToHsv_h_lt_one r g b
  have hs01 := rgbToHsv_s_mem r g b h1 h3 h5
  have hv01 := rgbToHsv_v_mem r g b h1 h2 h3 h4 h5 h6
  unfold stageHSV
  simp only [identityParams, zero_div, add_zero, mul_one, ne_eq, not_true_eq_false,
    if_false]
  rw [jsFmod1_eq_self _ hh0 hh1, if_neg (not_lt.mpr hh0),
    clamp01_eq_self _ hs01.1 hs01.2, clamp01_eq_self _ hv01.1 hv01.2,
    hsv_roundtrip r g b h1 h3 h5]

lemma gradeColor_identity (ops : RealOps) (hpow : ops.pow2 0 = 1) (c : Color)
    (h1 : 0 ≤ c.r) (h2 : c.r ≤ 1) (h3 : 0 ≤ c.g) (h4 : c.g ≤ 1)
    (h5 : 0 ≤ c.b) (h6 : c.b ≤ 1) :
    gradeColor ops identityParams c = c := by
  obtain ⟨r, g, b⟩ := c
  have e1 : stageExposure ops identityParams ⟨r, g, b⟩ = ⟨r, g, b⟩ := by
    unfold stageExposure
    simp only [identityParams, hpow, mul_one]
  have e2 : stageBrightness identityParams ⟨r, g, b⟩ = ⟨r, g, b⟩ := by
    unfold stageBrightness
    simp only [identityParams, mul_one]
  have e3 : stageContrast identityParams ⟨r, g, b⟩ = ⟨r, g, b⟩ := by
    unfold stageContrast
    simp only [identityParams, mul_one, Color.mk.injEq]
    refine ⟨by ring, by ring, by ring⟩
  have e4 : clampColor ⟨r, g, b⟩ = ⟨r, g, b⟩ :=
    clampColor_eq_self ⟨r, g, b⟩ h1 h2 h3 h4 h5 h6
  have e5 : stageHSV identityParams ⟨r, g, b⟩ = ⟨r, g, b⟩ :=
    stageHSV_identity ⟨r, g, b⟩ h1 h2 h3 h4 h5 h6
  have e6 : stageCrossProcess identityParams ⟨r, g, b⟩ = ⟨r, g, b⟩ := by
    unfold stageCrossProcess
    simp only [identityParams, ne_eq, not_true_eq_false]
    norm_num
  have e7 : stageSplitTone ops identityParams ⟨r, g, b⟩ = ⟨r, g, b⟩ := by
    unfold stageSplitTone
    simp only [identityParams, Color.mk.injEq]
    refine ⟨by ring, by ring, by ring⟩
  have e8 : stageCurves identityParams ⟨r, g, b⟩ = ⟨r, g, b⟩ := by
    unfold stageCurves
    simp only [identityParams]
    rw [interpolateCurve_identityCurve r h1 h2, interpolateCurve_identityCurve g h3 h4,
      interpolateCurve_identityCurve b h5 h6]
  have e9 : stageCorrections ops identityParams ⟨r, g, b⟩ = ⟨r, g, b⟩ := by
    unfold stageCorrections
    simp only [identityParams, List.length_nil, gt_iff_lt, lt_self_iff_false, if_false]
  unfold gradeColor gradeStage8 gradeStage7 gradeStage6 gradeStage5 gradeStage4
  rw [e1, e2, e3, e4, e5, e6, e7, e4, e8, e9, e4]

/-! Byte conversion lemmas. -/

lemma roundHalfEven_intCast (z : ℤ) : roundHalfEven (z : ℚ) = z := by
  simp only [roundHalfEven, Int.floor_intCast, sub_self]
  rw [if_pos (by norm_num : (0:ℚ) < 1/2)]

lemma toByte_natCast (n : ℕ) (hn : n ≤ 255) : toByte (n : ℚ) = n := by
  unfold toByte
  rw [show ((n : ℚ)) = (((n : ℤ) : ℚ)) by push_cast; rfl, roundHalfEven_intCast,
    max_eq_right (by positivity : (0:ℤ) ≤ (n:ℤ)),
    min_eq_right (by exact_mod_cast hn : (n:ℤ) ≤ 255)]
  simp

/-- Claim C1: for the identity GradingParameters (exposure 0, brightness 1,
contrast 1, hue 0, saturation 1, value 1, vibrancy 0, crossProcess 0, all
offset wheels at the origin, diagonal identity curves and no corrections),
every cube cell of the generated LUT stores its own normalised coordinate
within one part in 255 per channel.  The power function is pinned only at
the exercised argument, Math.pow(2, 0) = 1. -/
theorem C1_generateLUT_identity (ops : RealOps) (hpow : ops.pow2 0 = 1)
    (r g b : ℕ) (hr : r ≤ 15) (hg : g ≤ 15) (hb : b ≤ 15) :
    |((generateLUTCell ops identityParams r g b).1 : ℚ) / 255 - (r : ℚ) / 15| ≤ 1 / 255 ∧
    |((generateLUTCell ops identityParams r g b).2.1 : ℚ) / 255 - (g : ℚ) / 15| ≤ 1 / 255 ∧
    |((generateLUTCell ops identityParams r g b).2.2.1 : ℚ) / 255 - (b : ℚ) / 15| ≤ 1 / 255 := by
  have hr1 : ((r : ℚ) / 15) ≤ 1 := by
    rw [div_le_one (by norm_num)]
    exact_mod_cast hr
  have hg1 : ((g : ℚ) / 15) ≤ 1 := by
    rw [div_le_one (by norm_num)]
    exact_mod_cast hg
  have hb1 : ((b : ℚ) / 15) ≤ 1 := by
    rw [div_le_one (by norm_num)]
    exact_mod_cast hb
  have hcell : generateLUTCell ops identityParams r g b = (17 * r, 17 * g, 17 * b, 255) := by
    unfold generateLUTCell
    rw [gradeColor_identity ops hpow ⟨(r:ℚ)/15, (g:ℚ)/15, (b:ℚ)/15⟩
      (by positivity) hr1 (by positivity) hg1 (by positivity) hb1]
    have er : ((r:ℚ)/15 * 255) = ((17 * r : ℕ) : ℚ) := by push_cast; ring
    have eg : ((g:ℚ)/15 * 255) = ((17 * g : ℕ) : ℚ) := by push_cast; ring
    have eb : ((b:ℚ)/15 * 255) = ((17 * b : ℕ) : ℚ) := by push_cast; ring
    show (toByte ((r:ℚ)/15 * 255), toByte ((g:ℚ)/15 * 255), toByte ((b:ℚ)/15 * 255), 255) = _
    rw [er, eg, eb, toByte_natCast _ (by omega), toByte_natCast _ (by omega),
      toByte_natCast _ (by omega)]
  rw [hcell]
  refine ⟨?_, ?_, ?_⟩
  · show |((17 * r : ℕ) : ℚ) / 255 - (r : ℚ) / 15| ≤ 1 / 255
    rw [show ((17 * r : ℕ) : ℚ) / 255 - (r : ℚ) / 15 = 0 from by push_cast; ring]
    norm_num
  · show |((17 * g : ℕ) : ℚ) / 255 - (g : ℚ) / 15| ≤ 1 / 255
    rw [show ((17 * g : ℕ) : ℚ) / 255 - (g : ℚ) / 15 = 0 from by push_cast; ring]
    norm_num
  · show |((17 * b : ℕ) : ℚ) / 255 - (b : ℚ) / 15| ≤ 1 / 255
    rw [show ((17 * b : ℕ) : ℚ) / 255 - (b : ℚ) / 15 = 0 from by push_cast; ring]
    norm_num

/-- Witness for Claim C1 at the concrete cube cell (3, 7, 15). -/
theorem C1_witness :
    |((generateLUTCell idOps identityParams 3 7 15).1 : ℚ) / 255 - ((3:ℕ) : ℚ) / 15| ≤ 1 / 255 ∧
    |((generateLUTCell idOps identityParams 3 7 15).2.1 : ℚ) / 255 - ((7:ℕ) : ℚ) / 15| ≤ 1 / 255 ∧
    |((generateLUTCell idOps identityParams 3 7 15).2.2.1 : ℚ) / 255 - ((15:ℕ) : ℚ) / 15| ≤ 1 / 255 := by
  exact C1_generateLUT_identity idOps rfl 3 7 15 (by norm_num) (by norm_num) (by norm_num)

/-- Claim C2: hsvToRgb inverts rgbToHsv exactly on the unit cube, the
grey (delta = 0) and black (max = 0) cases included. -/
theorem C2_hsv_rgb_roundtrip (r g b : ℚ) (hr0 : 0 ≤ r) (hr1 : r ≤ 1) (hg0 : 0 ≤ g)
    (hg1 : g ≤ 1) (hb0 : 0 ≤ b) (hb1 : b ≤ 1) :
    hsvToRgb (rgbToHsv r g b).1 (rgbToHsv r g b).2.1 (rgbToHsv r g b).2.2 = (r, g, b) :=
  hsv_roundtrip r g b hr0 hg0 hb0

/-- Witness for Claim C2 at the concrete color (3/4, 1/2, 1/4). -/
theorem C2_witness :
    hsvToRgb (rgbToHsv (3/4) (1/2) (1/4)).1 (rgbToHsv (3/4) (1/2) (1/4)).2.1
      (rgbToHsv (3/4) (1/2) (1/4)).2.2 = (3/4, 1/2, 1/4) :=
  C2_hsv_rgb_roundtrip (3/4) (1/2) (1/4) (by norm_num) (by norm_num) (by norm_num)
    (by norm_num) (by norm_num) (by norm_num)

/-- All six channel bounds of the unit cube at once. -/
def inUnit (c : Color) : Prop :=
  0 ≤ c.r ∧ c.r ≤ 1 ∧ 0 ≤ c.g ∧ c.g ≤ 1 ∧ 0 ≤ c.b ∧ c.b ≤ 1

lemma inUnit_clampColor (c : Color) : inUnit (clampColor c) :=
  ⟨(clamp01_mem c.r).1, (clamp01_mem c.r).2, (clamp01_mem c.g).1, (clamp01_mem c.g).2,
   (clamp01_mem c.b).1, (clamp01_mem c.b).2⟩

lemma inUnit_hsvToRgb_mk (h s v : ℚ) (hs0 : 0 ≤ s) (hs1 : s ≤ 1) (hv0 : 0 ≤ v)
    (hv1 : v ≤ 1) :
    inUnit ⟨(hsvToRgb h s v).1, (hsvToRgb h s v).2.1, (hsvToRgb h s v).2.2⟩ := by
  obtain ⟨m1, m2, m3⟩ := hsvToRgb_mem h s v hs0 hs1 hv0 hv1
  exact ⟨m1.1, m1.2, m2.1, m2.2, m3.1, m3.2⟩

lemma stageHSV_mem (p : LUTParameters) (c : Color) : inUnit (stageHSV p c) := by
  unfold stageHSV
  exact inUnit_hsvToRgb_mk _ _ _ (clamp01_mem _).1 (clamp01_mem _).2
    (clamp01_mem _).1 (clamp01_mem _).2

/-- The parameter set of the cross-process counterexample: identity
everywhere except crossProcess = 1, which the UI slider allows. -/
def crossParams : LUTParameters := { identityParams with crossProcess := 1 }

/-- Counterexample to Claim C3: with the conforming parameters
crossParams (crossProcess 1, every other control at identity) the white
cube cell (1,1,1) has red channel 23/20 > 1 immediately after the
cross-process stage 6, before the stage 8 clamp. -/
theorem C3_counterexample :
    (gradeStage6 idOps crossParams ⟨1, 1, 1⟩).r = 23/20 ∧
    ¬((gradeStage6 idOps crossParams ⟨1, 1, 1⟩).r ≤ 1) := by
  have e4 : gradeStage4 idOps crossParams ⟨1, 1, 1⟩ = ⟨1, 1, 1⟩ := by
    norm_num [gradeStage4, stageContrast, stageBrightness, stageExposure, clampColor,
      clamp01, crossParams, identityParams, idOps]
  have e5 : gradeStage5 idOps crossParams ⟨1, 1, 1⟩ = ⟨1, 1, 1⟩ := by
    have hfun : stageHSV crossParams = stageHSV identityParams := rfl
    show stageHSV crossParams (gradeStage4 idOps crossParams ⟨1, 1, 1⟩) = ⟨1, 1, 1⟩
    rw [e4, hfun]
    exact stageHSV_identity ⟨1, 1, 1⟩ (by norm_num) (by norm_num) (by norm_num)
      (by norm_num) (by norm_num) (by norm_num)
  have hval : (gradeStage6 idOps crossParams ⟨1, 1, 1⟩).r = 23/20 := by
    show (stageCrossProcess crossParams (gradeStage5 idOps crossParams ⟨1, 1, 1⟩)).r = 23/20
    rw [e5]
    norm_num [stageCrossProcess, crossParams, identityParams]
  exact ⟨hval, by rw [hval]; norm_num⟩

/-- Claim C3 (amended): every channel is inside the unit interval after
the stage 4 clamp, after the HSV stage 5, after the stage 8 clamp and
after the final clamp, for all parameters and inputs; immediately after
the cross-process stage 6 and the split-tone stage 7 the channels can
leave the unit interval, which is what the stage 8 clamp repairs. -/
theorem C3_amended (ops : RealOps) (p : LUTParameters) (c : Color) :
    inUnit (gradeStage4 ops p c) ∧ inUnit (gradeStage5 ops p c) ∧
    inUnit (gradeStage8 ops p c) ∧ inUnit (gradeColor ops p c) := by
  refine ⟨inUnit_clampColor _, ?_, inUnit_clampColor _, inUnit_clampColor _⟩
  exact stageHSV_mem p (gradeStage4 ops p c)

/-! The perceptual HSV distance of the color-correction matcher. -/

lemma abs_diff_le_one {a b : ℚ} (ha0 : 0 ≤ a) (ha1 : a ≤ 1) (hb0 : 0 ≤ b) (hb1 : b ≤ 1) :
    |a - b| ≤ 1 :=
  abs_le.mpr ⟨by linarith, by linarith⟩

lemma circular_hue_le {h ht : ℚ} (h0 : 0 ≤ h) (h1 : h < 1) (t0 : 0 ≤ ht) (t1 : ht < 1) :
    (if |h - ht| > 1/2 then 1 - |h - ht| else |h - ht|) ≤ 1/2 ∧
    0 ≤ (if |h - ht| > 1/2 then 1 - |h - ht| else |h - ht|) := by
  have habs : |h - ht| < 1 := abs_sub_lt_iff.mpr ⟨by linarith, by linarith⟩
  have habs0 : 0 ≤ |h - ht| := abs_nonneg _
  split_ifs with hgt
  · exact ⟨by linarith, by linarith⟩
  · exact ⟨by linarith [not_lt.mp hgt], habs0⟩

lemma distSq_le_five_halves (r g b tr tg tb : ℚ)
    (hr0 : 0 ≤ r) (hr1 : r ≤ 1) (hg0 : 0 ≤ g) (hg1 : g ≤ 1) (hb0 : 0 ≤ b) (hb1 : b ≤ 1)
    (ht0 : 0 ≤ tr) (ht1 : tr ≤ 1) (hu0 : 0 ≤ tg) (hu1 : tg ≤ 1) (hv0 : 0 ≤ tb)
    (hv1 : tb ≤ 1) :
    distSq r g b tr tg tb ≤ 5/2 := by
  obtain ⟨hc1, hc2⟩ := circular_hue_le (rgbToHsv_h_nonneg r g b) (rgbToHsv_h_lt_one r g b)
    (rgbToHsv_h_nonneg tr tg tb) (rgbToHsv_h_lt_one tr tg tb)
  have hsm := rgbToHsv_s_mem r g b hr0 hg0 hb0
  have hsm2 := rgbToHsv_s_mem tr tg tb ht0 hu0 hv0
  have hvm := rgbToHsv_v_mem r g b hr0 hr1 hg0 hg1 hb0 hb1
  have hvm2 := rgbToHsv_v_mem tr tg tb ht0 ht1 hu0 hu1 hv0 hv1
  have hsd : |(rgbToHsv r g b).2.1 - (rgbToHsv tr tg tb).2.1| ≤ 1 :=
    abs_diff_le_one hsm.1 hsm.2 hsm2.1 hsm2.2
  have hvd : |(rgbToHsv r g b).2.2 - (rgbToHsv tr tg tb).2.2| ≤ 1 :=
    abs_diff_le_one hvm.1 hvm.2 hvm2.1 hvm2.2
  have hsd0 : 0 ≤ |(rgbToHsv r g b).2.1 - (rgbToHsv tr tg tb).2.1| := abs_nonneg _
  have hvd0 : 0 ≤ |(rgbToHsv r g b).2.2 - (rgbToHsv tr tg tb).2.2| := abs_nonneg _
  simp only [distSq]
  nlinarith [hc1, hc2, hsd, hvd, hsd0, hvd0]

/-- The extreme pair of the matcher distance: black against cyan realises
the maximal circular hue difference 1/2 together with maximal saturation
and value differences 1. -/
lemma distSq_black_cyan : distSq 0 0 0 0 1 1 = 5/2 := by
  norm_num [distSq, rgbToHsv, abs]

/-- Counterexample to Claim C4: at the very pair that maximises the hue,
saturation and value differences (black against cyan) the normalised HSV
distance sqrt(distSq)/sqrt(4) is sqrt(5/2)/2, strictly below 1, so the
claimed worst-case bound 1 is not attained. -/
theorem C4_counterexample : distanceR 0 0 0 0 1 1 < 1 := by
  unfold distanceR
  rw [distSq_black_cyan]
  have h4 : Real.sqrt 4 = 2 := by
    rw [show (4:ℝ) = 2^2 by norm_num]
    exact Real.sqrt_sq (by norm_num)
  rw [h4, div_lt_one (by norm_num), Real.sqrt_lt' (by norm_num : (0:ℝ) < 2)]
  norm_num

/-- Claim C4 (amended): the distance sqrt(2 dh^2 + ds^2 + dv^2)/2 of the
matcher is at most 1 for every pair of unit-cube colors, but the bound is
not tight: the circular hue difference never exceeds 1/2, so the true
supremum is sqrt(10)/4, about 0.79, attained at black against cyan.  The
divisor 2 normalises the non-circular worst case dh = 1 instead. -/
theorem C4_amended (r g b tr tg tb : ℚ)
    (hr0 : 0 ≤ r) (hr1 : r ≤ 1) (hg0 : 0 ≤ g) (hg1 : g ≤ 1) (hb0 : 0 ≤ b) (hb1 : b ≤ 1)
    (ht0 : 0 ≤ tr) (ht1 : tr ≤ 1) (hu0 : 0 ≤ tg) (hu1 : tg ≤ 1) (hv0 : 0 ≤ tb)
    (hv1 : tb ≤ 1) :
    distanceR r g b tr tg tb ≤ Real.sqrt 10 / 4 ∧
    distanceR 0 0 0 0 1 1 = Real.sqrt 10 / 4 ∧
    Real.sqrt 10 / 4 < 1 := by
  have h4 : Real.sqrt 4 = 2 := by
    rw [show (4:ℝ) = 2^2 by norm_num]
    exact Real.sqrt_sq (by norm_num)
  have hform : Real.sqrt ((5/2 : ℚ) : ℝ) = Real.sqrt 10 / 2 := by
    rw [show (((5:ℚ)/2 : ℚ) : ℝ) = 10/4 by norm_num,
      Real.sqrt_div (by norm_num : (0:ℝ) ≤ 10) 4, h4]
  have hbc : distanceR 0 0 0 0 1 1 = Real.sqrt 10 / 4 := by
    unfold distanceR
    rw [distSq_black_cyan, h4, hform]
    ring
  have hlt : Real.sqrt 10 / 4 < 1 := by
    rw [div_lt_one (by norm_num), Real.sqrt_lt' (by norm_num : (0:ℝ) < 4)]
    norm_num
  refine ⟨?_, hbc, hlt⟩
  unfold distanceR
  rw [h4]
  have hd : ((distSq r g b tr tg tb : ℚ) : ℝ) ≤ ((5/2 : ℚ) : ℝ) := by
    exact_mod_cast distSq_le_five_halves r g b tr tg tb hr0 hr1 hg0 hg1 hb0 hb1
      ht0 ht1 hu0 hu1 hv0 hv1
  have hs := Real.sqrt_le_sqrt hd
  rw [hform] at hs
  linarith

/-- Witness for Claim C4 (amended) at the pair black against cyan. -/
theorem C4_witness :
    distanceR 0 0 0 0 1 1 ≤ Real.sqrt 10 / 4 ∧
    distanceR 0 0 0 0 1 1 = Real.sqrt 10 / 4 ∧
    Real.sqrt 10 / 4 < 1 := by
  exact C4_amended 0 0 0 0 1 1 (by norm_num) (by norm_num) (by norm_num) (by norm_num)
    (by norm_num) (by norm_num) (by norm_num) (by norm_num) (by norm_num) (by norm_num)
    (by norm_num) (by norm_num)

/-- Claim C5: a color matches itself with strength exactly 1 for every
positive tolerance: the HSV distance of a color to itself is 0, which is
never above a positive tolerance, and the cosine falloff at 0 is 1.  The
library functions are pinned only at the exercised arguments,
Math.sqrt(0) = 0 and Math.cos(0) = 1. -/
theorem C5_self_match (ops : RealOps) (hsq : ops.sqrt 0 = 0) (hcos : ops.coshalf 0 = 1)
    (r g b tol : ℚ) (hr0 : 0 ≤ r) (hr1 : r ≤ 1) (hg0 : 0 ≤ g) (hg1 : g ≤ 1)
    (hb0 : 0 ≤ b) (hb1 : b ≤ 1) (htol0 : 0 < tol) (htol1 : tol ≤ 1) :
    matchesColorRange ops r g b r g b tol = 1 := by
  have hz : distSq r g b r g b = 0 := by
    simp only [distSq, sub_self, abs_zero]
    norm_num
  unfold matchesColorRange
  rw [hz, hsq, zero_div, if_neg (not_lt.mpr htol0.le), zero_div, hcos]

/-- Witness for Claim C5 at the color (1/2, 1/3, 1/4) and tolerance 1/2. -/
theorem C5_witness :
    matchesColorRange idOps (1/2) (1/3) (1/4) (1/2) (1/3) (1/4) (1/2) = 1 :=
  C5_self_match idOps rfl rfl (1/2) (1/3) (1/4) (1/2) (by norm_num) (by norm_num)
    (by norm_num) (by norm_num) (by norm_num) (by norm_num) (by norm_num) (by norm_num)

/-- A single correction step is the identity when the correction is
disabled or its match strength at the incoming color is 0. -/
lemma applyOneCorrection_id (ops : RealOps) (c : Color) (corr : ColorCorrection)
    (h : corr.enabled = false ∨
      matchesColorRange ops c.r c.g c.b corr.targetColor.r corr.targetColor.g
        corr.targetColor.b corr.tolerance = 0) :
    applyOneCorrection ops c corr = c := by
  unfold applyOneCorrection
  rcases h with h | h
  · rw [if_pos h]
  · by_cases he : corr.enabled = false
    · rw [if_pos he]
    · rw [if_neg he]
      simp only [h, gt_iff_lt, lt_self_iff_false, if_false]

/-- Claim C6: a correction whose enabled flag is false, or whose match
strength at the working color is 0 (HSV distance beyond its tolerance),
leaves the color passing through applyColorCorrections exactly unchanged:
deleting that correction from the list does not change the result. -/
theorem C6_skip (ops : RealOps) (c : Color) (l1 l2 : List ColorCorrection)
    (corr : ColorCorrection)
    (h : corr.enabled = false ∨
      matchesColorRange ops (applyColorCorrections ops c l1).r
        (applyColorCorrections ops c l1).g (applyColorCorrections ops c l1).b
        corr.targetColor.r corr.targetColor.g corr.targetColor.b corr.tolerance = 0) :
    applyColorCorrections ops c (l1 ++ corr :: l2) = applyColorCorrections ops c (l1 ++ l2) := by
  have h1 : applyColorCorrections ops c (l1 ++ corr :: l2) =
      applyColorCorrections ops
        (applyOneCorrection ops (applyColorCorrections ops c l1) corr) l2 := by
    unfold applyColorCorrections
    rw [List.foldl_append, List.foldl_cons]
  have h2 : applyColorCorrections ops c (l1 ++ l2) =
      applyColorCorrections ops (applyColorCorrections ops c l1) l2 := by
    unfold applyColorCorrections
    rw [List.foldl_append]
  rw [h1, h2, applyOneCorrection_id ops _ corr h]

/-- A disabled correction for the witness. -/
def disabledCorr : ColorCorrection :=
  { id := "c0", enabled := false, targetColor := ⟨1, 0, 0⟩, tolerance := 1/2,
    adjustments := ⟨0, 0, 0, 0⟩ }

/-- Witness for Claim C6: a disabled correction in a singleton list is
skipped. -/
theorem C6_witness :
    applyColorCorrections idOps ⟨1/2, 1/2, 1/2⟩ ([] ++ disabledCorr :: []) =
      applyColorCorrections idOps ⟨1/2, 1/2, 1/2⟩ ([] ++ []) :=
  C6_skip idOps ⟨1/2, 1/2, 1/2⟩ [] [] disabledCorr (Or.inl rfl)

/-! Curve evaluator lemmas. -/

/-- Strictly increasing x coordinates, pairwise along the list. -/
def SortedX (curve : List Point) : Prop :=
  curve.Pairwise (fun u v => u.x < v.x)

/-- Non-decreasing y coordinates, pairwise along the list. -/
def MonoY (curve : List Point) : Prop :=
  curve.Pairwise (fun u v => u.y ≤ v.y)

/-- One unfolding step of the scan with fall-through. -/
lemma evalAux_cons₂ (x : ℚ) (p q : Point) (rest : List Point) :
    evalAux x (p :: q :: rest) =
      if p.x ≤ x ∧ x ≤ q.x then p.y + (x - p.x) / (q.x - p.x) * (q.y - p.y)
      else evalAux x (q :: rest) := by
  unfold evalAux
  simp only [scanPairs]
  split_ifs with h
  · rfl
  · rfl

lemma evalAux_singleton (x : ℚ) (p : Point) : evalAux x [p] = p.y := rfl

/-- The scan agrees with the y value of every control point, for strictly
increasing x coordinates. -/
lemma evalAux_at_index (curve : List Point) (hs : SortedX curve) (i : ℕ)
    (hi : i < curve.length) :
    evalAux ((curve.get ⟨i, hi⟩).x) curve = (curve.get ⟨i, hi⟩).y := by
  induction curve generalizing i with
  | nil => exact absurd hi (by simp)
  | cons p rest ih =>
    cases rest with
    | nil =>
      have hi0 : i = 0 := by
        have := hi
        simp only [List.length_cons, List.length_nil] at this
        omega
      subst hi0
      exact evalAux_singleton p.x p
    | cons q rest2 =>
      have hpq : p.x < q.x :=
        (List.pairwise_cons.mp hs).1 q (List.mem_cons_self q rest2)
      cases i with
      | zero =>
        simp only [List.get]
        rw [evalAux_cons₂, if_pos ⟨le_refl p.x, hpq.le⟩, sub_self, zero_div, zero_mul,
          add_zero]
      | succ j =>
        cases j with
        | zero =>
          simp only [List.get]
          rw [evalAux_cons₂, if_pos ⟨hpq.le, le_refl q.x⟩,
            div_self (ne_of_gt (sub_pos.mpr hpq))]
          ring
        | succ k =>
          have htail : SortedX (q :: rest2) := (List.pairwise_cons.mp hs).2
          have hik : k + 1 < (q :: rest2).length := by
            simpa using hi
          have hmem : (q :: rest2).get ⟨k + 1, hik⟩ ∈ rest2 := by
            have hk2 : k < rest2.length := by
              simpa using hik
            simpa using List.get_mem rest2 k hk2
          have hqx : q.x < ((q :: rest2).get ⟨k + 1, hik⟩).x :=
            (List.pairwise_cons.mp htail).1 _ hmem
          have hget : (p :: q :: rest2).get ⟨k + 2, hi⟩ = (q :: rest2).get ⟨k + 1, hik⟩ :=
            rfl
          rw [hget, evalAux_cons₂, if_neg (fun hc => absurd hc.2 (not_le.mpr hqx))]
          exact ih htail (k + 1) hik

/-- Claim C7: for a curve of at least two points with strictly increasing
x coordinates inside the unit interval, the evaluator returns exactly the
y value of every control point at that control point x coordinate. -/
theorem C7_control_points (curve : List Point) (hlen : 2 ≤ curve.length)
    (hs : SortedX curve) (hmem : ∀ pt ∈ curve, 0 ≤ pt.x ∧ pt.x ≤ 1)
    (i : ℕ) (hi : i < curve.length) :
    interpolateCurve ((curve.get ⟨i, hi⟩).x) curve = (curve.get ⟨i, hi⟩).y := by
  obtain ⟨hx0, hx1⟩ := hmem (curve.get ⟨i, hi⟩) (List.get_mem curve i hi)
  unfold interpolateCurve
  rw [clamp01_eq_self _ hx0 hx1]
  exact evalAux_at_index curve hs i hi

/-- Witness for Claim C7 on a concrete three-point curve at index 1. -/
theorem C7_witness :
    interpolateCurve ((([⟨0, 0⟩, ⟨1/2, 3/4⟩, ⟨1, 1⟩] : List Point).get ⟨1, by norm_num⟩).x)
        [⟨0, 0⟩, ⟨1/2, 3/4⟩, ⟨1, 1⟩] =
      (([⟨0, 0⟩, ⟨1/2, 3/4⟩, ⟨1, 1⟩] : List Point).get ⟨1, by norm_num⟩).y := by
  exact C7_control_points [⟨0, 0⟩, ⟨1/2, 3/4⟩, ⟨1, 1⟩] (by norm_num)
    (by simp [SortedX, List.pairwise_cons]; norm_num)
    (by
      intro pt hpt
      simp only [List.mem_cons, List.not_mem_nil, or_false] at hpt
      rcases hpt with h | h | h <;> subst h <;> exact ⟨by norm_num, by norm_num⟩)
    1 (by norm_num)

/-- On a sorted curve with non-decreasing y values, the evaluation at any
point at or beyond the first x coordinate is at least the first y
value. -/
lemma evalAux_lower_bound (l : List Point) (q : Point) (hs : SortedX (q :: l))
    (hy : MonoY (q :: l)) (x : ℚ) (hx : q.x ≤ x) : q.y ≤ evalAux x (q :: l) := by
  induction l generalizing q with
  | nil => exact le_of_eq (evalAux_singleton x q).symm
  | cons r l2 ih =>
    have hqr : q.x < r.x := (List.pairwise_cons.mp hs).1 r (List.mem_cons_self r l2)
    have hyy : q.y ≤ r.y := (List.pairwise_cons.mp hy).1 r (List.mem_cons_self r l2)
    rw [evalAux_cons₂]
    split_ifs with hc
    · have hd0 : (0:ℚ) < r.x - q.x := sub_pos.mpr hqr
      have ht0 : 0 ≤ (x - q.x) / (r.x - q.x) := div_nonneg (by linarith) hd0.le
      nlinarith [mul_nonneg ht0 (sub_nonneg.mpr hyy)]
    · have hxr : r.x ≤ x := by
        by_contra hcon
        exact hc ⟨hx, (not_le.mp hcon).le⟩
      calc q.y ≤ r.y := hyy
        _ ≤ evalAux x (r :: l2) :=
          ih r (List.Pairwise.of_cons hs) (List.Pairwise.of_cons hy) hxr

/-- Monotonicity of the scan on sorted curves with non-decreasing y
values, for inputs at or beyond the first x coordinate. -/
lemma evalAux_mono (l : List Point) (p : Point) (hs : SortedX (p :: l))
    (hy : MonoY (p :: l)) (a b2 : ℚ) (ha : p.x ≤ a) (hab : a ≤ b2) :
    evalAux a (p :: l) ≤ evalAux b2 (p :: l) := by
  induction l generalizing p with
  | nil => rw [evalAux_singleton, evalAux_singleton]
  | cons q l2 ih =>
    have hpq : p.x < q.x := (List.pairwise_cons.mp hs).1 q (List.mem_cons_self q l2)
    have hpy : p.y ≤ q.y := (List.pairwise_cons.mp hy).1 q (List.mem_cons_self q l2)
    have hd0 : (0:ℚ) < q.x - p.x := sub_pos.mpr hpq
    rw [evalAux_cons₂, evalAux_cons₂]
    by_cases hb : b2 ≤ q.x
    · rw [if_pos ⟨ha, le_trans hab hb⟩, if_pos ⟨le_trans ha hab, hb⟩]
      have hts : (a - p.x) / (q.x - p.x) ≤ (b2 - p.x) / (q.x - p.x) := by
        rw [div_le_div_right hd0]
        linarith
      nlinarith [mul_le_mul_of_nonneg_right hts (sub_nonneg.mpr hpy)]
    · push_neg at hb
      by_cases ha2 : a ≤ q.x
      · rw [if_pos ⟨ha, ha2⟩, if_neg (fun hc => absurd hc.2 (not_le.mpr hb))]
        have ht1 : (a - p.x) / (q.x - p.x) ≤ 1 := by
          rw [div_le_one hd0]
          linarith
        have ht0 : 0 ≤ (a - p.x) / (q.x - p.x) := div_nonneg (by linarith) hd0.le
        have h1 : p.y + (a - p.x) / (q.x - p.x) * (q.y - p.y) ≤ q.y := by
          nlinarith [mul_nonneg (by linarith : (0:ℚ) ≤ 1 - (a - p.x) / (q.x - p.x))
            (sub_nonneg.mpr hpy)]
        have h2 : q.y ≤ evalAux b2 (q :: l2) :=
          evalAux_lower_bound l2 q (List.Pairwise.of_cons hs) (List.Pairwise.of_cons hy)
            b2 hb.le
        linarith
      · push_neg at ha2
        rw [if_neg (fun hc => absurd hc.2 (not_le.mpr ha2)),
          if_neg (fun hc => absurd hc.2 (not_le.mpr (lt_of_lt_of_le ha2 hab)))]
        exact ih q (List.Pairwise.of_cons hs) (List.Pairwise.of_cons hy) ha2.le

/-- Counterexample to Claim C8: the two-point curve from (1/2, 0) to
(1, 1) has strictly increasing x and non-decreasing y, yet the evaluator
is not monotone, because an input below the covered range falls through
to the LAST y value: it maps 0 to 1 but 3/4 to 1/2. -/
theorem C8_counterexample :
    SortedX [⟨1/2, 0⟩, ⟨1, 1⟩] ∧ MonoY [⟨1/2, 0⟩, ⟨1, 1⟩] ∧ (0:ℚ) ≤ 3/4 ∧
    interpolateCurve 0 [⟨1/2, 0⟩, ⟨1, 1⟩] = 1 ∧
    interpolateCurve (3/4) [⟨1/2, 0⟩, ⟨1, 1⟩] = 1/2 ∧
    ¬(interpolateCurve 0 [⟨1/2, 0⟩, ⟨1, 1⟩] ≤ interpolateCurve (3/4) [⟨1/2, 0⟩, ⟨1, 1⟩]) := by
  have e1 : interpolateCurve 0 [⟨1/2, 0⟩, ⟨1, 1⟩] = 1 := by
    norm_num [interpolateCurve, evalAux, scanPairs, lastY, clamp01, min_def, max_def]
  have e2 : interpolateCurve (3/4) [⟨1/2, 0⟩, ⟨1, 1⟩] = 1/2 := by
    norm_num [interpolateCurve, evalAux, scanPairs, lastY, clamp01, min_def, max_def]
  refine ⟨?_, ?_, by norm_num, e1, e2, ?_⟩
  · simp only [SortedX, List.pairwise_cons, List.mem_singleton, List.not_mem_nil]
    norm_num
  · simp only [MonoY, List.pairwise_cons, List.mem_singleton, List.not_mem_nil]
    norm_num
  · rw [e1, e2]
    norm_num

/-- Claim C8 (amended): the evaluator is monotone non-decreasing for
every curve with at least two points, strictly increasing x, and
non-decreasing y, provided the first control point covers the clamped
input range from below (first x at most 0, the invariant the owning
editor maintains).  Without that proviso the fall-through to the last y
value below the covered range breaks monotonicity, as the counterexample
shows. -/
theorem C8_monotone (p : Point) (rest : List Point) (hlen : 2 ≤ (p :: rest).length)
    (hs : SortedX (p :: rest)) (hy : MonoY (p :: rest)) (hp0 : p.x ≤ 0)
    (x1 x2 : ℚ) (h12 : x1 ≤ x2) :
    interpolateCurve x1 (p :: rest) ≤ interpolateCurve x2 (p :: rest) := by
  unfold interpolateCurve
  exact evalAux_mono rest p hs hy (clamp01 x1) (clamp01 x2)
    (le_trans hp0 (clamp01_mem x1).1) (clamp01_mono h12)

/-- Witness for Claim C8 (amended) on the diagonal curve at 1/4 and 1/2. -/
theorem C8_witness :
    interpolateCurve (1/4) [⟨0, 0⟩, ⟨1, 1⟩] ≤ interpolateCurve (1/2) [⟨0, 0⟩, ⟨1, 1⟩] := by
  exact C8_monotone ⟨0, 0⟩ [⟨1, 1⟩] (by norm_num)
    (by
      simp only [SortedX, List.pairwise_cons, List.mem_singleton, List.not_mem_nil]
      norm_num)
    (by
      simp only [MonoY, List.pairwise_cons, List.mem_singleton, List.not_mem_nil]
      norm_num)
    (by norm_num) (1/4) (1/2) (by norm_num)

/-- The fall-through value is the y of the genuinely last point. -/
lemma lastY_eq_getLast (l : List Point) (h : l ≠ []) : lastY l = (l.getLast h).y := by
  induction l with
  | nil => exact absurd rfl h
  | cons p rest ih =>
    cases rest with
    | nil => rfl
    | cons q rest2 =>
      rw [show lastY (p :: q :: rest2) = lastY (q :: rest2) from rfl,
        ih (List.cons_ne_nil q rest2), List.getLast_cons (List.cons_ne_nil q rest2)]

/-- Below every bracketing pair the scan finds nothing. -/
lemma scanPairs_eq_none (x : ℚ) (curve : List Point)
    (hall : ∀ pt ∈ curve, x < pt.x) : scanPairs x curve = none := by
  induction curve with
  | nil => rfl
  | cons p rest ih =>
    cases rest with
    | nil => rfl
    | cons q rest2 =>
      simp only [scanPairs]
      rw [if_neg (fun hc =>
        absurd hc.1 (not_le.mpr (hall p (List.mem_cons_self p (q :: rest2)))))]
      exact ih (fun pt hm => hall pt (List.mem_cons_of_mem p hm))

/-- Claim C10: for a curve with at least two points, strictly increasing
x and a first x strictly above 0, an input whose clamped value is
strictly below the first x makes the loop find no bracketing pair, so
interpolateCurve falls through to the y of the LAST point, not the
first. -/
theorem C10_below_range (p : Point) (rest : List Point) (hlen : 2 ≤ (p :: rest).length)
    (hs : SortedX (p :: rest)) (hp0 : 0 < p.x) (input : ℚ)
    (hlt : clamp01 input < p.x) :
    interpolateCurve input (p :: rest) =
      ((p :: rest).getLast (List.cons_ne_nil p rest)).y := by
  unfold interpolateCurve evalAux
  rw [scanPairs_eq_none (clamp01 input) (p :: rest) ?_]
  · exact lastY_eq_getLast (p :: rest) (List.cons_ne_nil p rest)
  · intro pt hpt
    rcases List.mem_cons.mp hpt with h | h
    · rw [h]
      exact hlt
    · have := (List.pairwise_cons.mp hs).1 pt h
      linarith

/-- Witness for Claim C10: input 0 on the curve from (1/2, 1/4) to (1, 1)
returns the last y value 1. -/
theorem C10_witness :
    interpolateCurve 0 [⟨1/2, 1/4⟩, ⟨1, 1⟩] =
      (([⟨1/2, 1/4⟩, ⟨1, 1⟩] : List Point).getLast
        (List.cons_ne_nil (⟨1/2, 1/4⟩ : Point) [⟨1, 1⟩])).y := by
  exact C10_below_range ⟨1/2, 1/4⟩ [⟨1, 1⟩] (by norm_num)
    (by
      simp only [SortedX, List.pairwise_cons, List.mem_singleton, List.not_mem_nil]
      norm_num)
    (by norm_num) 0
    (by norm_num [clamp01, min_def, max_def])

/-- Claim C9: the applicator touches only the red, green and blue bytes
of each pixel, replacing them with the LUT bytes at the cell quantised by
round((channel/255) * 15), and copies the alpha byte through: the byte at
every alpha offset 4k + 3 of the output equals the input byte there. -/
theorem C9_alpha_preserved (lut : List ℕ) :
    (∀ (r g b a : ℕ) (rest : List ℕ),
        applyLUTToData lut (r :: g :: b :: a :: rest) =
          lut.getD (lutLookupIndex r g b) 0 :: lut.getD (lutLookupIndex r g b + 1) 0 ::
            lut.getD (lutLookupIndex r g b + 2) 0 :: a :: applyLUTToData lut rest) ∧
    (∀ (src : List ℕ) (k : ℕ),
        (applyLUTToData lut src).getD (4 * k + 3) 0 = src.getD (4 * k + 3) 0) := by
  constructor
  · intro r g b a rest
    rfl
  · intro src k
    induction k generalizing src with
    | zero =>
      match src with
      | [] => rfl
      | [r] => rfl
      | [r, g] => rfl
      | [r, g, b] => rfl
      | r :: g :: b :: a :: rest => rfl
    | succ k ih =>
      match src with
      | [] => rfl
      | [r] => rfl
      | [r, g] => rfl
      | [r, g, b] => rfl
      | r :: g :: b :: a :: rest =>
        have hidx : 4 * (k + 1) + 3 = (4 * k + 3) + 1 + 1 + 1 + 1 := by ring
        rw [hidx]
        show (applyLUTToData lut (r :: g :: b :: a :: rest)).getD (4 * k + 3 + 1 + 1 + 1 + 1) 0 =
          rest.getD (4 * k + 3) 0
        rw [show applyLUTToData lut (r :: g :: b :: a :: rest) =
          lut.getD (lutLookupIndex r g b) 0 :: lut.getD (lutLookupIndex r g b + 1) 0 ::
            lut.getD (lutLookupIndex r g b + 2) 0 :: a :: applyLUTToData lut rest from rfl]
        simp only [List.getD_cons_succ]
        exact ih rest

end ThemeEditor
